import Mathlib

/-!
Verification of TheDocs: a shallow embedding of the document index store
(`app/services/index_store.py`), the fallback text scanner and metadata
enrichment pipeline (`src/app/main.py`), and the optional search-engine
wrapper (`src/app/services/search_service.py`), together with theorems
checking the specification's claims against these definitions.

Python strings are modelled as `String` / `List Char` (Python indexes and
slices strings by code point, as `List Char` does).  Filesystem and
network effects are passed explicitly: the set of stored files is a
`List String`, file contents are an oracle `String → Option (List Char)`,
and the search engine is an oracle record whose calls are traced.
-/

namespace TheDocs

/-- Python ASCII whitespace characters, as recognised by `str.strip()` /
`str.split()` (the Unicode-only whitespace code points do not occur in
this code base's data). -/
def isPySpace (c : Char) : Bool :=
  c = ' ' || c = '\t' || c = '\n' || c = '\x0d' || c = '\x0b' || c = '\x0c'

/-- `str.strip()` on a list of characters: drop whitespace from both ends. -/
def pyStripL (l : List Char) : List Char :=
  ((l.dropWhile isPySpace).reverse.dropWhile isPySpace).reverse

/-- `str.strip()` on a `String`. -/
def pyStrip (s : String) : String :=
  (pyStripL s.toList).asString

/-- `str.lower()` (ASCII case folding; the tokens compared in this code
base are ASCII). -/
def pyLower (s : String) : String :=
  (s.toList.map Char.toLower).asString

/-- `str.split()` with no separator: split on runs of whitespace,
discarding empty pieces.  `acc` holds the reversed current word. -/
def pySplitAux : List Char → List Char → List (List Char)
  | [], acc => if acc = [] then [] else [acc.reverse]
  | c :: rest, acc =>
    if isPySpace c then
      if acc = [] then pySplitAux rest [] else acc.reverse :: pySplitAux rest []
    else pySplitAux rest (c :: acc)

/-- `str.split()` on a list of characters. -/
def pySplit (l : List Char) : List (List Char) :=
  pySplitAux l []

/-! ## Record store (`index_store.py`) -/

/-- `IndexRow`: one record of the CSV-backed index
(`index_store.py`, dataclass `IndexRow`). -/
structure IndexRow where
  filename : String
  title : String
  description : String
  is_public : Bool
  date_uploaded : String
  updated_at : String
deriving DecidableEq, Repr

/-- `_parse_bool(value, default)` (`index_store.py` lines 24-27):
`None` or `""` yields the default; otherwise the stripped, lowercased
token must be one of `1/true/yes/y`. -/
def parseBool (value : Option String) (default : Bool) : Bool :=
  match value with
  | none => default
  | some v =>
    if v = "" then default
    else ["1", "true", "yes", "y"].contains (pyLower (pyStrip v))

/-- `_bool_str(value)` (`index_store.py` lines 30-31). -/
def boolStr (value : Bool) : String :=
  if value then "true" else "false"

/-- One persisted CSV record as produced by `csv.DictReader` over the
six-column table: the raw string value of each column.  (The `csv`
module round-trips arbitrary string fields exactly, so the quoting layer
is abstracted away.) -/
structure CsvRecord where
  filename : String
  title : String
  description : String
  is_public : String
  date_uploaded : String
  updated_at : String
deriving DecidableEq, Repr

/-- The record written for a row by `IndexStore._write_rows`
(`index_store.py` lines 216-238): each field serialised as-is, the
boolean through `_bool_str`. -/
def rowToRecord (row : IndexRow) : CsvRecord :=
  { filename := row.filename
    title := row.title
    description := row.description
    is_public := boolStr row.is_public
    date_uploaded := row.date_uploaded
    updated_at := row.updated_at }

/-- The loop body of `IndexStore._read_rows` (`index_store.py` lines
200-213) for one record: skip the record when the stripped filename is
blank, otherwise strip the string fields, parse the boolean with default
`True`, and default a missing `date_uploaded` to today's date. -/
def readRecord (today : String) (rec : CsvRecord) : Option IndexRow :=
  let filename := pyStrip rec.filename
  if filename = "" then none
  else
    some
      { filename := filename
        title := pyStrip rec.title
        description := pyStrip rec.description
        is_public := parseBool (some rec.is_public) true
        date_uploaded := pyStrip (if rec.date_uploaded = "" then today else rec.date_uploaded)
        updated_at := pyStrip rec.updated_at }

/-- `IndexStore._read_rows` over a list of persisted records. -/
def readRows (today : String) (recs : List CsvRecord) : List IndexRow :=
  recs.filterMap (readRecord today)

/-- `IndexStore.upsert_row` (`index_store.py` lines 85-96) as a pure
list transformation: replace the first row with the same filename in
place, or append when no row matches. -/
def upsertRow : List IndexRow → IndexRow → List IndexRow
  | [], row => [row]
  | existing :: rest, row =>
    if existing.filename = row.filename then row :: rest
    else existing :: upsertRow rest row

/-! ## File repository (`index_store.py`) -/

/-- `os.path.basename` (POSIX): the part after the last `/`. -/
def basename (p : List Char) : List Char :=
  (p.reverse.takeWhile (fun c => c ≠ '/')).reverse

/-- `os.path.splitext` on a basename: split at the last dot, unless every
character before it is itself a dot (so `.md` and `..md` have no
extension), mirroring CPython's `genericpath._splitext`. -/
def splitext (p : List Char) : List Char × List Char :=
  let tailLen := (p.reverse.takeWhile (fun c => c ≠ '.')).length
  if tailLen = p.length then (p, [])
  else
    let dotPos := p.length - 1 - tailLen
    if (p.take dotPos).any (fun c => c ≠ '.') then (p.take dotPos, p.drop dotPos)
    else (p, [])

/-- Characters kept by the sanitiser's character class `[A-Za-z0-9_-]`. -/
def isFilenameChar (c : Char) : Bool :=
  c.isAlpha || c.isDigit || c = '_' || c = '-'

/-- `re.sub(r"[^A-Za-z0-9_-]+", "_", name)`: replace every maximal run of
disallowed characters with a single underscore.  `inRun` records whether
the previous character belonged to such a run. -/
def collapseRuns : List Char → Bool → List Char
  | [], _ => []
  | c :: rest, inRun =>
    if isFilenameChar c then c :: collapseRuns rest false
    else if inRun then collapseRuns rest true
    else '_' :: collapseRuns rest true

/-- `str.strip("_")`: drop underscores from both ends. -/
def stripUnderscores (l : List Char) : List Char :=
  ((l.dropWhile (fun c => c = '_')).reverse.dropWhile (fun c => c = '_')).reverse

/-- `sanitize_filename` (`index_store.py` lines 34-43).  `none` models the
`ValueError` raised for an extension outside the allow-list
`{".md", ".markdown"}`. -/
def sanitize_filename (original_name : String) : Option String :=
  let base := basename original_name.toList
  let (name, ext) := splitext base
  let ext := ext.map Char.toLower
  if ext = ".md".toList ∨ ext = ".markdown".toList then
    let name := stripUnderscores (collapseRuns name false)
    let name := if name = [] then "document".toList else name
    some (name ++ ext).asString
  else none

/-- The counter loop of `IndexStore.ensure_unique_filename`
(`index_store.py` lines 117-122), with the directory listing passed as
`existing` and a fuel bound (`existing.length + 1` attempts always
suffice, since the candidates for distinct counters are distinct). -/
def ensureUniqueAux (existing : List String) (name ext : String) : Nat → Nat → String
  | 0, counter => name ++ "-" ++ toString counter ++ ext
  | fuel + 1, counter =>
    let candidate := name ++ "-" ++ toString counter ++ ext
    if existing.contains candidate then ensureUniqueAux existing name ext fuel (counter + 1)
    else candidate

/-- `IndexStore.ensure_unique_filename` (`index_store.py` lines 112-122)
over an explicit listing of the markdown directory. -/
def ensureUniqueFilename (existing : List String) (filename : String) : String :=
  if existing.contains filename then
    let (name, ext) := splitext filename.toList
    ensureUniqueAux existing name.asString ext.asString (existing.length + 1) 1
  else filename

/-- `IndexStore.save_markdown_file` (`index_store.py` lines 124-129):
sanitize, deduplicate against the stored files, and record the write.
Returns the stored name and the new directory listing; `none` models the
propagated `ValueError` for an unsupported extension. -/
def saveMarkdownFile (stored : List String) (filename : String) :
    Option (String × List String) :=
  (sanitize_filename filename).map fun sanitized =>
    let uniqueName := ensureUniqueFilename stored sanitized
    (uniqueName, stored ++ [uniqueName])

/-! ## Metadata enrichment (`main.py` and `index_store.py`) -/

/-- Python `dict` lookup `d.get(k)` over an insertion-ordered association
list whose keys are unique. -/
def dictGet {α : Type} : List (String × α) → String → Option α
  | [], _ => none
  | (k, v) :: rest, key => if k = key then some v else dictGet rest key

/-- Python `dict` assignment `d[k] = v`: replace the value of an existing
key in place, or append a new binding. -/
def dictInsert {α : Type} : List (String × α) → String → α → List (String × α)
  | [], key, value => [(key, value)]
  | (k, v) :: rest, key, value =>
    if k = key then (key, value) :: rest
    else (k, v) :: dictInsert rest key value

/-- The `title`/`description` payload dictionary proposed for one file by
`_build_metadata_updates`; `none` models an absent key. -/
structure MetaUpdate where
  title : Option String
  description : Option String
deriving DecidableEq, Repr

/-- The dictionary returned by `OpenAIService.generate_metadata` when it
succeeds; `generated.get("title", "")` reads these fields with default
`""`, so they are modelled as total strings. -/
structure GenMeta where
  title : String
  description : String
deriving DecidableEq, Repr

/-- One entry of the `existing` map handed to `_build_metadata_updates`:
the record's current title and description. -/
structure ExistingMeta where
  title : String
  description : String
deriving DecidableEq, Repr

/-- `existing.get(filename, {}).get("title")` coerced by Python truthiness:
an absent filename behaves like an empty title. -/
def existingTitle (existing : List (String × ExistingMeta)) (filename : String) : String :=
  ((dictGet existing filename).map ExistingMeta.title).getD ""

/-- `existing.get(filename, {}).get("description")`, as `existingTitle`. -/
def existingDescription (existing : List (String × ExistingMeta)) (filename : String) : String :=
  ((dictGet existing filename).map ExistingMeta.description).getD ""

/-- `_build_metadata_updates` (`main.py` lines 106-132) with the
filesystem and the summarizer passed as oracles: `contentOf` models
`path.exists()` plus `path.read_text()`, `loadPrompt` models
`_load_prompt`, and `gen` models `openai_service.generate_metadata`.
Returns the proposed updates dictionary and the error count. -/
def buildMetadataUpdates (contentOf : String → Option String)
    (loadPrompt : String → String) (gen : String → Option GenMeta)
    (existing : List (String × ExistingMeta)) :
    List String → List (String × MetaUpdate) × Nat → List (String × MetaUpdate) × Nat
  | [], acc => acc
  | filename :: rest, (updates, errors) =>
    match contentOf filename with
    | none => buildMetadataUpdates contentOf loadPrompt gen existing rest (updates, errors + 1)
    | some content =>
      match gen (loadPrompt content) with
      | none => buildMetadataUpdates contentOf loadPrompt gen existing rest (updates, errors + 1)
      | some generated =>
        let title := pyStrip generated.title
        let description := pyStrip generated.description
        let payloadTitle : Option String :=
          if title ≠ "" ∧ existingTitle existing filename = "" then some title else none
        let payloadDescription : Option String :=
          if description ≠ "" ∧ existingDescription existing filename = "" then some description
          else none
        if payloadTitle.isSome ∨ payloadDescription.isSome then
          buildMetadataUpdates contentOf loadPrompt gen existing rest
            (dictInsert updates filename ⟨payloadTitle, payloadDescription⟩, errors)
        else buildMetadataUpdates contentOf loadPrompt gen existing rest (updates, errors)

/-- The loop body of `IndexStore.update_missing_metadata`
(`index_store.py` lines 184-191) for one row: when the row's filename is
a key of `updates`, overwrite the fields whose payload value is present
and truthy and refresh `updated_at` with the current timestamp `now`. -/
def applyMetaUpdate (updates : List (String × MetaUpdate)) (now : String)
    (row : IndexRow) : IndexRow :=
  match dictGet updates row.filename with
  | none => row
  | some u =>
    let title := match u.title with
      | some t => if t = "" then row.title else t
      | none => row.title
    let description := match u.description with
      | some d => if d = "" then row.description else d
      | none => row.description
    { row with title := title, description := description, updated_at := now }

/-- `IndexStore.update_missing_metadata` (`index_store.py` lines 179-192):
an empty updates dictionary returns without touching the table, otherwise
every row passes through `applyMetaUpdate`. -/
def update_missing_metadata (updates : List (String × MetaUpdate)) (now : String)
    (rows : List IndexRow) : List IndexRow :=
  if updates = [] then rows else rows.map (applyMetaUpdate updates now)

/-! ## Fallback scanner (`main.py`) -/

/-- A search hit (`SearchResult` dataclass, `search_service.py`). -/
structure SearchResult where
  snippet : String
  filename : String
deriving DecidableEq, Repr

/-- `str.find(term, start)` restricted to one probe chain: scan positions
`start, start+1, …` for the first occurrence; the fuel
`c.length + 1 - start` covers every admissible position. -/
def findFromAux (c t : List Char) : Nat → Nat → Option Nat
  | 0, _ => none
  | fuel + 1, start =>
    if start + t.length ≤ c.length then
      if t.isPrefixOf (c.drop start) then some start
      else findFromAux c t fuel (start + 1)
    else none

/-- `content.find(term, start)`: the least index `≥ start` where `term`
occurs, `none` for Python's `-1`. -/
def findFrom (c t : List Char) (start : Nat) : Option Nat :=
  findFromAux c t (c.length + 1 - start) start

/-- The scan loop of `_find_matches` (`main.py` lines 185-193): record
each found index and resume searching right after the end of the match.
The fuel `c.length + 1` bounds the iterations (each one advances `start`
by at least the term's positive length). -/
def findMatchesAux (c t : List Char) : Nat → Nat → List Nat
  | 0, _ => []
  | fuel + 1, start =>
    match findFrom c t start with
    | none => []
    | some idx => idx :: findMatchesAux c t fuel (idx + t.length)

/-- `_find_matches(content, term)` (`main.py` lines 180-193): an empty
term yields no matches, otherwise both strings are lowercased and the
non-overlapping scan runs from position 0. -/
def findMatches (content term : List Char) : List Nat :=
  if term = [] then []
  else
    let c := content.map Char.toLower
    let t := term.map Char.toLower
    findMatchesAux c t (c.length + 1) 0

/-- `t` occurs in `c` at position `i`. -/
def occursAt (c t : List Char) (i : Nat) : Bool :=
  t.isPrefixOf (c.drop i)

/-- The number of positions of `c` at which `t` occurs (occurrences of a
substring, overlapping ones counted separately). -/
def countOccurrences (c t : List Char) : Nat :=
  ((List.range (c.length + 1)).filter (occursAt c t)).length

/-- The snippet construction of `_fallback_search` (`main.py` lines
163-170) for a match at `start`: the window of 25 characters of padding
on each side, clamped to the document, with `...` prepended when the
window starts after the beginning and appended when it ends before the
end of the document. -/
def buildSnippet (content term : List Char) (start : Nat) : List Char :=
  let endPos := start + term.length
  let snippetStart := start - 25
  let snippetEnd := min (endPos + 25) content.length
  let snippet := (content.drop snippetStart).take (snippetEnd - snippetStart)
  let snippet := if 0 < snippetStart then '.' :: '.' :: '.' :: snippet else snippet
  if snippetEnd < content.length then snippet ++ ['.', '.', '.'] else snippet

/-- The characters of `rest` strictly before its first double quote;
`none` when `rest` has no double quote. -/
def takeUntilQuote : List Char → Option (List Char)
  | [] => none
  | c :: rest => if c = '"' then some [] else (takeUntilQuote rest).map (c :: ·)

/-- The leftmost match of the pattern `"([^"]+)"`: the first double quote
followed by at least one non-quote character and a closing quote; the
returned group is unstripped.  Mirrors `re.search` in `_extract_phrase`
(`main.py` lines 175-177) and `re.findall(...)[0]` in `_build_query`. -/
def extractPhraseRaw : List Char → Option (List Char)
  | [] => none
  | c :: rest =>
    if c = '"' then
      match takeUntilQuote rest with
      | some grp => if grp = [] then extractPhraseRaw rest else some grp
      | none => extractPhraseRaw rest
    else extractPhraseRaw rest

/-- `_fallback_search(query, public_only)` (`main.py` lines 144-172) over
an explicit table and a content oracle (`path.exists()` plus
`path.read_text()`): strip the query and return nothing when it is
blank; otherwise restrict to public rows when requested, choose the
quoted phrase (stripped, falling back to the whole query when the strip
empties it) or else the whole query as the term, emit one hit per match
with its snippet, and cap the result list at 100. -/
def fallbackSearch (rows : List IndexRow) (contents : String → Option (List Char))
    (query : String) (publicOnly : Bool) : List SearchResult :=
  let q := pyStrip query
  if q = "" then []
  else
    let rows := if publicOnly then rows.filter (fun r => r.is_public) else rows
    let phrase := (extractPhraseRaw q.toList).map pyStripL
    let term : List Char :=
      match phrase with
      | some p => if p = [] then q.toList else p
      | none => q.toList
    let results := rows.foldr
      (fun row acc =>
        match contents row.filename with
        | none => acc
        | some content =>
          ((findMatches content term).map fun start =>
            ({ snippet := (buildSnippet content term start).asString
               filename := row.filename } : SearchResult)) ++ acc)
      []
    results.take 100

/-! ## Search-engine wrapper (`search_service.py`) -/

/-- The query clause produced by `_build_query`. -/
inductive EsQuery where
  | matchPhrase (phrase : String)
  | queryString (query : String)
deriving DecidableEq, Repr

/-- The request body assembled by `SearchService.search`. -/
structure SearchBody where
  query : EsQuery
  publicOnly : Bool
  size : Nat
deriving DecidableEq, Repr

/-- One hit of an engine response: the `_source.filename` field and the
`highlight.content` fragments. -/
structure EsHit where
  filename : String
  fragments : List String
deriving DecidableEq, Repr

/-- One network call issued to the search engine. -/
inductive EngineCall where
  | indicesExists
  | indicesCreate
  | indexDoc (filename content : String) (is_public : Bool)
  | deleteDoc (filename : String)
  | updateVis (filename : String) (is_public : Bool)
  | searchReq (body : SearchBody)
deriving DecidableEq, Repr

/-- The configured engine client as a response oracle; `Except.error`
models a raised transport/engine exception. -/
structure Engine where
  existsResp : Except String Bool
  createResp : Except String Unit
  indexResp : Except String Unit
  deleteResp : Except String Unit
  updateResp : Except String Unit
  searchResp : SearchBody → Except String (List EsHit)

/-- The characters escaped by `_escape_query_string`
(`search_service.py` line 161). -/
def esSpecialChars : List Char :=
  "+-=&|><!()\x7b\x7d[]^\"~:/\\".toList

/-- `_escape_query_string(value)`: prefix each special character with a
backslash. -/
def escapeQueryString (value : List Char) : List Char :=
  value.foldr (fun c acc => if esSpecialChars.contains c then '\\' :: c :: acc else c :: acc) []

/-- `_build_query(query)` (`search_service.py` lines 141-157): the first
quoted group (stripped) becomes a phrase query; otherwise each
whitespace-separated token is escaped, wrapped in wildcards, and joined
into one query string. -/
def buildQuery (query : String) : EsQuery :=
  match extractPhraseRaw query.toList with
  | some grp => .matchPhrase (pyStripL grp).asString
  | none =>
    let terms := pySplit query.toList
    let escaped := terms.filterMap fun t =>
      if t = [] then none else some ('*' :: (escapeQueryString t ++ ['*']))
    .queryString (List.intercalate [' '] escaped).asString

/-- `SearchService.ensure_index` (`search_service.py` lines 36-54) with
the client known present: given the readiness flag, return the new flag
and the calls issued; exceptions are caught and leave the flag unset. -/
def ensureIndex (engine : Engine) (ready : Bool) : Bool × List EngineCall :=
  if ready then (true, [])
  else
    match engine.existsResp with
    | .error _ => (false, [.indicesExists])
    | .ok true => (true, [.indicesExists])
    | .ok false =>
      match engine.createResp with
      | .error _ => (false, [.indicesExists, .indicesCreate])
      | .ok _ => (true, [.indicesExists, .indicesCreate])

/-- `SearchService.index_document` (`search_service.py` lines 56-72): a
missing client returns immediately; otherwise the index is ensured and
the document indexed, with any exception caught.  Returns the readiness
flag and the trace of engine calls. -/
def indexDocument (client : Option Engine) (ready : Bool)
    (filename content : String) (is_public : Bool) : Bool × List EngineCall :=
  match client with
  | none => (ready, [])
  | some engine =>
    let (ready, calls) := ensureIndex engine ready
    (ready, calls ++ [.indexDoc filename content is_public])

/-- `SearchService.delete_document` (`search_service.py` lines 74-81). -/
def deleteDocument (client : Option Engine) (ready : Bool)
    (filename : String) : Bool × List EngineCall :=
  match client with
  | none => (ready, [])
  | some engine =>
    let (ready, calls) := ensureIndex engine ready
    (ready, calls ++ [.deleteDoc filename])

/-- `SearchService.update_visibility` (`search_service.py` lines 83-95). -/
def updateVisibility (client : Option Engine) (ready : Bool)
    (filename : String) (is_public : Bool) : Bool × List EngineCall :=
  match client with
  | none => (ready, [])
  | some engine =>
    let (ready, calls) := ensureIndex engine ready
    (ready, calls ++ [.updateVis filename is_public])

/-- The response-parsing loop of `SearchService.search`
(`search_service.py` lines 127-138): one result per highlight fragment,
or a single empty-snippet result for a hit with no fragments. -/
def parseHits (hits : List EsHit) : List SearchResult :=
  hits.foldr
    (fun hit acc =>
      if hit.fragments = [] then { snippet := "", filename := hit.filename } :: acc
      else (hit.fragments.map fun f =>
        ({ snippet := f, filename := hit.filename } : SearchResult)) ++ acc)
    []

/-- `SearchService.search` (`search_service.py` lines 97-138): `none`
models Python's `None` ("not available"), returned when no client is
configured or when the engine request raises; a blank query returns the
empty result list after the index-readiness check but without a search
request.  Returns the result, the readiness flag, and the call trace. -/
def searchOp (client : Option Engine) (ready : Bool) (query : String)
    (publicOnly : Bool) (size : Nat) :
    Option (List SearchResult) × Bool × List EngineCall :=
  match client with
  | none => (none, ready, [])
  | some engine =>
    let (ready, calls) := ensureIndex engine ready
    let q := pyStrip query
    if q = "" then (some [], ready, calls)
    else
      let body : SearchBody := { query := buildQuery q, publicOnly := publicOnly, size := size }
      match engine.searchResp body with
      | .error _ => (none, ready, calls ++ [.searchReq body])
      | .ok hits => (some (parseHits hits), ready, calls ++ [.searchReq body])

/-! ## Concrete inputs used by the counterexamples and witnesses -/

/-- A 200-character document with `test` at offset 100 and no other
occurrence (the scenario of the fallback-windowing claim). -/
def doc200 : List Char :=
  List.replicate 100 'a' ++ "test".toList ++ List.replicate 96 'b'

/-- A one-row table for the fallback-scanner scenarios. -/
def scanRows : List IndexRow :=
  [{ filename := "doc.md", title := "", description := "", is_public := true,
     date_uploaded := "2024-01-01", updated_at := "" }]

/-- A content oracle serving `doc200` as `doc.md`. -/
def scanContents200 (f : String) : Option (List Char) :=
  if f = "doc.md" then some doc200 else none

/-- The window `doc200[75:129]`: 25 characters of padding on each side of
the match at offset 100. -/
def windowC3 : List Char :=
  List.replicate 25 'a' ++ "test".toList ++ List.replicate 25 'b'

/-- The snippet the code actually produces for that match: the window
with both `...` markers. -/
def snippetC3 : String :=
  ('.' :: '.' :: '.' :: windowC3 ++ ['.', '.', '.']).asString

/-- A content oracle serving `aaxaa` overlap material as `doc.md`. -/
def scanContentsAAA (f : String) : Option (List Char) :=
  if f = "doc.md" then some "aaa".toList else none

/-- An engine whose search request always fails (models a raised
transport exception) but whose index checks succeed. -/
def engineSearchDown : Engine :=
  { existsResp := .ok true, createResp := .ok (), indexResp := .ok ()
    deleteResp := .ok (), updateResp := .ok ()
    searchResp := fun _ => .error "connection refused" }

/-- An engine whose index-existence check fails but whose search request
succeeds with no hits. -/
def engineExistsDown : Engine :=
  { existsResp := .error "connection refused", createResp := .ok (), indexResp := .ok ()
    deleteResp := .ok (), updateResp := .ok ()
    searchResp := fun _ => .ok [] }

/-- A concrete record `a.md` with no metadata. -/
def rowA : IndexRow :=
  { filename := "a.md", title := "", description := "", is_public := true,
    date_uploaded := "2024-01-01", updated_at := "" }

/-- A concrete record `b.md` with no metadata. -/
def rowB : IndexRow :=
  { filename := "b.md", title := "", description := "", is_public := false,
    date_uploaded := "2024-01-01", updated_at := "" }

/-- A replacement record for the filename `a.md`. -/
def rowA2 : IndexRow :=
  { filename := "a.md", title := "new title", description := "d", is_public := false,
    date_uploaded := "2024-01-02", updated_at := "2024-01-02 10:00:00" }

/-- A record for `a.md` whose title and description are already set. -/
def rowX : IndexRow :=
  { filename := "a.md", title := "X", description := "D", is_public := true,
    date_uploaded := "2024-01-01", updated_at := "" }

end TheDocs

namespace TheDocs

/-! ## Helper lemmas -/

theorem upsertRow_eq_append_of_not_mem (rows : List IndexRow) (row : IndexRow)
    (h : row.filename ∉ rows.map IndexRow.filename) :
    upsertRow rows row = rows ++ [row] := by
  induction rows with
  | nil => rfl
  | cons e rest ih =>
    simp only [List.map_cons, List.mem_cons, not_or] at h
    have hne : ¬ e.filename = row.filename := fun he => h.1 he.symm
    simp only [upsertRow, if_neg hne, ih h.2, List.cons_append]

theorem upsertRow_split_of_mem (rows : List IndexRow) (row : IndexRow)
    (h : row.filename ∈ rows.map IndexRow.filename) :
    ∃ pre old post, rows = pre ++ old :: post ∧ old.filename = row.filename ∧
      upsertRow rows row = pre ++ row :: post := by
  induction rows with
  | nil => simp at h
  | cons e rest ih =>
    by_cases he : e.filename = row.filename
    · exact ⟨[], e, rest, rfl, he, by simp [upsertRow, he]⟩
    · simp only [List.map_cons, List.mem_cons] at h
      rcases h with h | h
      · exact absurd h.symm he
      · obtain ⟨pre, old, post, hsplit, hold, hup⟩ := ih h
        exact ⟨e :: pre, old, post, by rw [hsplit]; rfl, hold,
          by simp [upsertRow, he, hup]⟩

theorem upsertRow_map_filename_of_mem (rows : List IndexRow) (row : IndexRow)
    (h : row.filename ∈ rows.map IndexRow.filename) :
    (upsertRow rows row).map IndexRow.filename = rows.map IndexRow.filename := by
  obtain ⟨pre, old, post, hsplit, hold, hup⟩ := upsertRow_split_of_mem rows row h
  rw [hup, hsplit]
  simp [hold]

theorem upsertRow_nodup (rows : List IndexRow) (row : IndexRow)
    (h : (rows.map IndexRow.filename).Nodup) :
    ((upsertRow rows row).map IndexRow.filename).Nodup := by
  by_cases hm : row.filename ∈ rows.map IndexRow.filename
  · rw [upsertRow_map_filename_of_mem rows row hm]
    exact h
  · rw [upsertRow_eq_append_of_not_mem rows row hm]
    simp only [List.map_append, List.map_cons, List.map_nil]
    rw [List.nodup_append]
    refine ⟨h, List.nodup_singleton _, fun x hx hx2 => ?_⟩
    simp only [List.mem_singleton] at hx2
    exact hm (hx2 ▸ hx)

theorem foldl_upsertRow_nodup (ops : List IndexRow) (rows : List IndexRow)
    (h : (rows.map IndexRow.filename).Nodup) :
    ((ops.foldl upsertRow rows).map IndexRow.filename).Nodup := by
  induction ops generalizing rows with
  | nil => exact h
  | cons op ops ih => exact ih _ (upsertRow_nodup _ _ h)

/-! ## C1 -/

/-- C1: starting from a table with pairwise-distinct filenames, any
sequence of `upsert_row` calls preserves distinctness; an upsert for a
present filename replaces that record in place (same length, same
position), and an upsert for an absent filename appends the record. -/
theorem upsert_row_spec (rows ops : List IndexRow) (row : IndexRow)
    (hnd : (rows.map IndexRow.filename).Nodup) :
    ((ops.foldl upsertRow rows).map IndexRow.filename).Nodup ∧
    (row.filename ∈ rows.map IndexRow.filename →
      (upsertRow rows row).length = rows.length ∧
      ∃ pre old post, rows = pre ++ old :: post ∧ old.filename = row.filename ∧
        upsertRow rows row = pre ++ row :: post) ∧
    (row.filename ∉ rows.map IndexRow.filename →
      upsertRow rows row = rows ++ [row]) := by
  refine ⟨foldl_upsertRow_nodup ops rows hnd, fun hm => ?_,
    upsertRow_eq_append_of_not_mem rows row⟩
  obtain ⟨pre, old, post, hsplit, hold, hup⟩ := upsertRow_split_of_mem rows row hm
  exact ⟨by rw [hup, hsplit]; simp, pre, old, post, hsplit, hold, hup⟩

/-- C1 witness: the theorem applied to a concrete two-row table, with an
upsert sequence hitting an existing filename. -/
theorem upsert_row_spec_witness :
    (([rowA, rowB].map IndexRow.filename).Nodup ∧
      (([rowA2].foldl upsertRow [rowA, rowB]).map IndexRow.filename).Nodup) ∧
    (rowA2.filename ∈ [rowA, rowB].map IndexRow.filename ∧
      (upsertRow [rowA, rowB] rowA2).length = [rowA, rowB].length) := by
  refine ⟨⟨by decide, (upsert_row_spec [rowA, rowB] [rowA2] rowA2 (by decide)).1⟩,
    by decide, ?_⟩
  exact ((upsert_row_spec [rowA, rowB] [rowA2] rowA2 (by decide)).2.1 (by decide)).1

/-! ## C2 -/

theorem parseBool_boolStr (b : Bool) : parseBool (some (boolStr b)) true = b := by
  cases b <;> decide

theorem readRecord_rowToRecord (today : String) (r : IndexRow)
    (hfn : pyStrip r.filename = r.filename) (hfne : r.filename ≠ "")
    (hti : pyStrip r.title = r.title) (hde : pyStrip r.description = r.description)
    (hdu : pyStrip r.date_uploaded = r.date_uploaded) (hdue : r.date_uploaded ≠ "")
    (hua : pyStrip r.updated_at = r.updated_at) :
    readRecord today (rowToRecord r) = some r := by
  simp [readRecord, rowToRecord, hfn, hfne, hti, hde, hdu, hdue,
    parseBool_boolStr, hua]

/-- C2 counterexample: a record whose filename is blank is dropped by the
read side, so writing one record and reading back yields zero records,
not the same one record. -/
theorem write_read_roundtrip_counterexample :
    readRows "2024-01-02"
      ([({ filename := "", title := "t", description := "d", is_public := true,
           date_uploaded := "2024-01-01", updated_at := "" } : IndexRow)].map rowToRecord) ≠
    [({ filename := "", title := "t", description := "d", is_public := true,
        date_uploaded := "2024-01-01", updated_at := "" } : IndexRow)] := by
  decide

/-- C2 (amended): writing N records with `_write_rows` and reading them
back with `_read_rows` yields the same N records in the same order,
provided every record is well-formed for the store's representation: the
filename is non-blank, the date is non-empty, and each string field
carries no leading or trailing whitespace (otherwise the read side's
stripping, blank-row skipping, or date defaulting alters or drops the
record). -/
theorem write_read_roundtrip (today : String) (rows : List IndexRow)
    (h : ∀ r ∈ rows, pyStrip r.filename = r.filename ∧ r.filename ≠ "" ∧
      pyStrip r.title = r.title ∧ pyStrip r.description = r.description ∧
      pyStrip r.date_uploaded = r.date_uploaded ∧ r.date_uploaded ≠ "" ∧
      pyStrip r.updated_at = r.updated_at) :
    readRows today (rows.map rowToRecord) = rows := by
  induction rows with
  | nil => rfl
  | cons r rest ih =>
    obtain ⟨h1, h2, h3, h4, h5, h6, h7⟩ := h r (List.mem_cons_self r rest)
    have hrest := ih fun x hx => h x (List.mem_cons_of_mem r hx)
    simp only [readRows, List.map_cons, List.filterMap_cons,
      readRecord_rowToRecord today r h1 h2 h3 h4 h5 h6 h7]
    simpa [readRows] using hrest

/-- C2 witness: the theorem applied to a concrete two-record table. -/
theorem write_read_roundtrip_witness :
    (∀ r ∈ [rowA, rowB], pyStrip r.filename = r.filename ∧ r.filename ≠ "" ∧
      pyStrip r.title = r.title ∧ pyStrip r.description = r.description ∧
      pyStrip r.date_uploaded = r.date_uploaded ∧ r.date_uploaded ≠ "" ∧
      pyStrip r.updated_at = r.updated_at) ∧
    readRows "2024-05-05" ([rowA, rowB].map rowToRecord) = [rowA, rowB] := by
  exact ⟨by decide, write_read_roundtrip "2024-05-05" [rowA, rowB] (by decide)⟩

/-! ## C5 -/

/-- C5 counterexample: a persisted row whose `is_public` field holds the
unrecognised non-empty token `banana` reads back as private
(`is_public = false`), not as the default `true`. -/
theorem parse_bool_default_counterexample :
    parseBool (some "banana") true = false ∧
    (readRecord "2024-01-01"
      ({ filename := "a.md", title := "", description := "", is_public := "banana",
         date_uploaded := "2024-01-01", updated_at := "" } : CsvRecord)).map
      IndexRow.is_public ≠ some true := by
  decide

/-- C5 (amended): only a missing or empty `is_public` value defaults (to
`true` on the read path); any non-empty value is parsed on its own — the
default argument is then irrelevant — and yields `true` exactly when the
stripped, lowercased token is one of `1`, `true`, `yes`, `y`, so an
unparsable non-empty token reads as `false`, not as the default. -/
theorem parse_bool_spec (d : Bool) (today : String) (rec : CsvRecord) :
    parseBool none d = d ∧ parseBool (some "") d = d ∧
    (∀ s : String, s ≠ "" → ∀ d1 d2 : Bool, parseBool (some s) d1 = parseBool (some s) d2) ∧
    (∀ s : String, s ≠ "" →
      (parseBool (some s) d = true ↔
        ["1", "true", "yes", "y"].contains (pyLower (pyStrip s)) = true)) ∧
    (rec.is_public = "" → ∀ row, readRecord today rec = some row → row.is_public = true) := by
  refine ⟨rfl, rfl, fun s hs d1 d2 => by simp [parseBool, hs],
    fun s hs => by simp [parseBool, hs], fun hpub row hrow => ?_⟩
  simp only [readRecord] at hrow
  by_cases hfn : pyStrip rec.filename = ""
  · simp [hfn] at hrow
  · simp only [hfn, if_neg hfn, if_false, Option.some_inj] at hrow
    rw [← hrow]
    simp [parseBool, hpub]

/-- C5 witness: the theorem applied to a concrete record with an empty
`is_public` field. -/
theorem parse_bool_spec_witness :
    ("banana" : String) ≠ "" ∧
    ({ filename := "a.md", title := "", description := "", is_public := "",
       date_uploaded := "2024-01-01", updated_at := "" } : CsvRecord).is_public = "" ∧
    parseBool (some "banana") true = parseBool (some "banana") false ∧
    ({ filename := "a.md", title := "", description := "", is_public := true,
       date_uploaded := "2024-01-01", updated_at := "" } : IndexRow).is_public = true := by
  refine ⟨by decide, by decide,
    (parse_bool_spec true "2024-01-01"
      ({ filename := "a.md", title := "", description := "", is_public := "",
         date_uploaded := "2024-01-01", updated_at := "" } : CsvRecord)).2.2.1
      "banana" (by decide) true false, ?_⟩
  exact (parse_bool_spec true "2024-01-01"
    ({ filename := "a.md", title := "", description := "", is_public := "",
       date_uploaded := "2024-01-01", updated_at := "" } : CsvRecord)).2.2.2.2
    rfl _ (by decide)

/-! ## C6 -/

/-- C6 counterexample: sanitization preserves letter case, so uploading
`My Report!.md` twice yields `My_Report.md` and `My_Report-1.md`, not the
lowercase names the claim states. -/
theorem save_markdown_counterexample :
    (saveMarkdownFile [] "My Report!.md").map Prod.fst ≠ some "my_report.md" ∧
    (saveMarkdownFile ["My_Report.md"] "My Report!.md").map Prod.fst ≠
      some "my_report-1.md" := by
  decide

/-- C6 (amended): uploading `My Report!.md` twice (the first stored file
still present) stores `My_Report.md` and then `My_Report-1.md`: the run
of disallowed characters collapses to one underscore, trailing
underscores are trimmed, letter case is preserved, and the collision
appends `-1` before the extension. -/
theorem save_markdown_collision :
    saveMarkdownFile [] "My Report!.md" = some ("My_Report.md", ["My_Report.md"]) ∧
    saveMarkdownFile ["My_Report.md"] "My Report!.md" =
      some ("My_Report-1.md", ["My_Report.md", "My_Report-1.md"]) := by
  decide

/-! ## C7 -/

theorem dictInsert_mem {α : Type} (l : List (String × α)) (key : String) (value : α)
    (p : String × α) (hp : p ∈ dictInsert l key value) :
    p ∈ l ∨ p = (key, value) := by
  induction l with
  | nil => simpa [dictInsert] using hp
  | cons kv rest ih =>
    by_cases hk : kv.1 = key
    · rcases kv with ⟨k, v⟩
      simp only [dictInsert, if_pos hk, List.mem_cons] at hp
      rcases hp with hp | hp
      · exact Or.inr hp
      · exact Or.inl (List.mem_cons_of_mem _ hp)
    · rcases kv with ⟨k, v⟩
      simp only [dictInsert, if_neg hk, List.mem_cons] at hp
      rcases hp with hp | hp
      · exact Or.inl (hp ▸ List.mem_cons_self _ _)
      · rcases ih hp with h | h
        · exact Or.inl (List.mem_cons_of_mem _ h)
        · exact Or.inr h

theorem dictGet_mem {α : Type} (l : List (String × α)) (key : String) (v : α)
    (h : dictGet l key = some v) : (key, v) ∈ l := by
  induction l with
  | nil => simp [dictGet] at h
  | cons kv rest ih =>
    rcases kv with ⟨k, w⟩
    by_cases hk : k = key
    · simp only [dictGet, if_pos hk, Option.some_inj] at h
      subst hk
      subst h
      exact List.mem_cons_self _ _
    · simp only [dictGet, if_neg hk] at h
      exact List.mem_cons_of_mem _ (ih h)

theorem buildMetadataUpdates_invariant (contentOf : String → Option String)
    (loadPrompt : String → String) (gen : String → Option GenMeta)
    (existing : List (String × ExistingMeta)) (files : List String)
    (acc : List (String × MetaUpdate) × Nat)
    (hacc : ∀ p ∈ acc.1,
      (existingTitle existing p.1 ≠ "" → p.2.title = none) ∧
      (existingDescription existing p.1 ≠ "" → p.2.description = none)) :
    ∀ p ∈ (buildMetadataUpdates contentOf loadPrompt gen existing files acc).1,
      (existingTitle existing p.1 ≠ "" → p.2.title = none) ∧
      (existingDescription existing p.1 ≠ "" → p.2.description = none) := by
  induction files generalizing acc with
  | nil => exact hacc
  | cons f rest ih =>
    rcases acc with ⟨updates, errors⟩
    intro p hp
    simp only [buildMetadataUpdates] at hp
    rcases hc : contentOf f with _ | content
    · simp only [hc] at hp
      exact ih (updates, errors + 1) hacc p hp
    · simp only [hc] at hp
      rcases hg : gen (loadPrompt content) with _ | generated
      · simp only [hg] at hp
        exact ih (updates, errors + 1) hacc p hp
      · simp only [hg] at hp
        by_cases hT : pyStrip generated.title ≠ "" ∧ existingTitle existing f = "" <;>
          by_cases hD : pyStrip generated.description ≠ "" ∧
            existingDescription existing f = "" <;>
          simp [hT, hD] at hp
        · refine ih _ ?_ p hp
          intro q hq
          rcases dictInsert_mem updates f _ q hq with hmem | hmem
          · exact hacc q hmem
          · rw [hmem]
            exact ⟨fun htne => absurd hT.2 htne, fun hdne => absurd hD.2 hdne⟩
        · refine ih _ ?_ p hp
          intro q hq
          rcases dictInsert_mem updates f _ q hq with hmem | hmem
          · exact hacc q hmem
          · rw [hmem]
            exact ⟨fun htne => absurd hT.2 htne, fun _ => rfl⟩
        · refine ih _ ?_ p hp
          intro q hq
          rcases dictInsert_mem updates f _ q hq with hmem | hmem
          · exact hacc q hmem
          · rw [hmem]
            exact ⟨fun _ => rfl, fun hdne => absurd hD.2 hdne⟩
        · exact ih (updates, errors) hacc p hp

/-- C7: with the record's own current values supplied as the existing
map, `_build_metadata_updates` never proposes a `title` for a record
whose title is already non-empty — whatever the filesystem, the prompt
template, and the summarizer return — so applying the proposed updates
through `update_missing_metadata`'s per-row step leaves that record's
title unchanged; symmetrically for `description`. -/
theorem enrichment_non_clobber (files : List String) (contentOf : String → Option String)
    (loadPrompt : String → String) (gen : String → Option GenMeta)
    (existing : List (String × ExistingMeta)) (now : String) (row : IndexRow)
    (hex : dictGet existing row.filename =
      some { title := row.title, description := row.description }) :
    (row.title ≠ "" →
      (∀ u, dictGet (buildMetadataUpdates contentOf loadPrompt gen existing files ([], 0)).1
          row.filename = some u → u.title = none) ∧
      (applyMetaUpdate (buildMetadataUpdates contentOf loadPrompt gen existing files ([], 0)).1
          now row).title = row.title) ∧
    (row.description ≠ "" →
      (∀ u, dictGet (buildMetadataUpdates contentOf loadPrompt gen existing files ([], 0)).1
          row.filename = some u → u.description = none) ∧
      (applyMetaUpdate (buildMetadataUpdates contentOf loadPrompt gen existing files ([], 0)).1
          now row).description = row.description) := by
  have hinv := buildMetadataUpdates_invariant contentOf loadPrompt gen existing files ([], 0)
    (by intro p hp; simp at hp)
  have hti : existingTitle existing row.filename = row.title := by
    simp [existingTitle, hex]
  have hde : existingDescription existing row.filename = row.description := by
    simp [existingDescription, hex]
  constructor
  · intro ht
    have hu : ∀ u, dictGet (buildMetadataUpdates contentOf loadPrompt gen existing files
        ([], 0)).1 row.filename = some u → u.title = none := by
      intro u hget
      exact (hinv _ (dictGet_mem _ _ _ hget)).1 (by rw [hti]; exact ht)
    refine ⟨hu, ?_⟩
    simp only [applyMetaUpdate]
    cases hget : dictGet (buildMetadataUpdates contentOf loadPrompt gen existing files
        ([], 0)).1 row.filename with
    | none => rfl
    | some u => simp [hu u hget]
  · intro hd
    have hu : ∀ u, dictGet (buildMetadataUpdates contentOf loadPrompt gen existing files
        ([], 0)).1 row.filename = some u → u.description = none := by
      intro u hget
      exact (hinv _ (dictGet_mem _ _ _ hget)).2 (by rw [hde]; exact hd)
    refine ⟨hu, ?_⟩
    simp only [applyMetaUpdate]
    cases hget : dictGet (buildMetadataUpdates contentOf loadPrompt gen existing files
        ([], 0)).1 row.filename with
    | none => rfl
    | some u => simp [hu u hget]

/-- C7 witness: a summarizer that proposes a new title and description
for `a.md` while the record already has both; the proposal for that
filename carries no title and the applied row keeps its title. -/
theorem enrichment_non_clobber_witness :
    dictGet [("a.md", ({ title := "X", description := "D" } : ExistingMeta))] "a.md" =
      some { title := (rowX : IndexRow).title, description := (rowX : IndexRow).description } ∧
    (rowX : IndexRow).title ≠ "" ∧
    (applyMetaUpdate
      (buildMetadataUpdates (fun _ => some "content") (fun s => s)
        (fun _ => some { title := "Y", description := "E" })
        [("a.md", { title := "X", description := "D" })] ["a.md"] ([], 0)).1
      "2024-01-02 10:00:00" rowX).title = (rowX : IndexRow).title := by
  refine ⟨by decide, by decide, ?_⟩
  exact ((enrichment_non_clobber ["a.md"] (fun _ => some "content") (fun s => s)
    (fun _ => some { title := "Y", description := "E" })
    [("a.md", { title := "X", description := "D" })] "2024-01-02 10:00:00" rowX
    (by decide)).1 (by decide)).2

/-! ## C8 -/

theorem applyMetaUpdate_of_dictGet_none (updates : List (String × MetaUpdate))
    (now : String) (row : IndexRow) (h : dictGet updates row.filename = none) :
    applyMetaUpdate updates now row = row := by
  simp only [applyMetaUpdate, h]

theorem map_applyMetaUpdate_nil (now : String) (rows : List IndexRow) :
    rows.map (applyMetaUpdate [] now) = rows := by
  induction rows with
  | nil => rfl
  | cons r rest ih => simp [applyMetaUpdate, dictGet, ih]

/-- C8: `update_missing_metadata` rewrites the table row by row; a row
whose filename is not a key of `updates` is returned unchanged in every
field; a row whose filename is a key gets exactly the provided truthy
fields and a refreshed `updated_at`, keeping its filename, visibility and
upload date; and the table's filename sequence is unchanged, so filenames
in `updates` matching no row add nothing and raise nothing. -/
theorem update_missing_metadata_spec (updates : List (String × MetaUpdate))
    (now : String) (rows : List IndexRow) :
    update_missing_metadata updates now rows = rows.map (applyMetaUpdate updates now) ∧
    (update_missing_metadata updates now rows).length = rows.length ∧
    (∀ row : IndexRow, dictGet updates row.filename = none →
      applyMetaUpdate updates now row = row) ∧
    (∀ (row : IndexRow) (u : MetaUpdate), dictGet updates row.filename = some u →
      (applyMetaUpdate updates now row).filename = row.filename ∧
      (applyMetaUpdate updates now row).is_public = row.is_public ∧
      (applyMetaUpdate updates now row).date_uploaded = row.date_uploaded ∧
      (applyMetaUpdate updates now row).updated_at = now ∧
      (applyMetaUpdate updates now row).title =
        (match u.title with
          | some t => if t = "" then row.title else t
          | none => row.title) ∧
      (applyMetaUpdate updates now row).description =
        (match u.description with
          | some d => if d = "" then row.description else d
          | none => row.description)) ∧
    (update_missing_metadata updates now rows).map IndexRow.filename =
      rows.map IndexRow.filename := by
  have hmap : update_missing_metadata updates now rows =
      rows.map (applyMetaUpdate updates now) := by
    by_cases hu : updates = []
    · subst hu
      simp [update_missing_metadata, map_applyMetaUpdate_nil]
    · simp [update_missing_metadata, hu]
  have hfields : ∀ (row : IndexRow) (u : MetaUpdate),
      dictGet updates row.filename = some u →
      (applyMetaUpdate updates now row).filename = row.filename ∧
      (applyMetaUpdate updates now row).is_public = row.is_public ∧
      (applyMetaUpdate updates now row).date_uploaded = row.date_uploaded ∧
      (applyMetaUpdate updates now row).updated_at = now ∧
      (applyMetaUpdate updates now row).title =
        (match u.title with
          | some t => if t = "" then row.title else t
          | none => row.title) ∧
      (applyMetaUpdate updates now row).description =
        (match u.description with
          | some d => if d = "" then row.description else d
          | none => row.description) := by
    intro row u hget
    simp [applyMetaUpdate, hget]
  have hfilenames : (rows.map (applyMetaUpdate updates now)).map IndexRow.filename =
      rows.map IndexRow.filename := by
    rw [List.map_map]
    refine List.map_congr_left fun row _ => ?_
    cases hget : dictGet updates row.filename with
    | none => rw [Function.comp_apply, applyMetaUpdate_of_dictGet_none updates now row hget]
    | some u => exact (hfields row u hget).1
  refine ⟨hmap, by rw [hmap, List.length_map], applyMetaUpdate_of_dictGet_none updates now,
    hfields, by rw [hmap]; exact hfilenames⟩

/-- C8 witness: a concrete updates map touching `a.md`, ignoring `b.md`,
and naming the absent `c.md`; the table keeps its filenames, `b.md` is
untouched, and `a.md` gets the provided title with a fresh timestamp. -/
theorem update_missing_metadata_spec_witness :
    dictGet [("a.md", ({ title := some "T", description := none } : MetaUpdate)),
      ("c.md", ({ title := some "C", description := none } : MetaUpdate))] rowB.filename =
      none ∧
    applyMetaUpdate [("a.md", { title := some "T", description := none }),
      ("c.md", { title := some "C", description := none })] "2024-06-01 00:00:00" rowB =
      rowB ∧
    (update_missing_metadata [("a.md", { title := some "T", description := none }),
      ("c.md", { title := some "C", description := none })] "2024-06-01 00:00:00"
      [rowA, rowB]).map IndexRow.filename = [rowA, rowB].map IndexRow.filename := by
  refine ⟨by decide, ?_, ?_⟩
  · exact (update_missing_metadata_spec [("a.md", { title := some "T", description := none }),
      ("c.md", { title := some "C", description := none })] "2024-06-01 00:00:00"
      [rowA, rowB]).2.2.1 rowB (by decide)
  · exact (update_missing_metadata_spec [("a.md", { title := some "T", description := none }),
      ("c.md", { title := some "C", description := none })] "2024-06-01 00:00:00"
      [rowA, rowB]).2.2.2.2

/-! ## C9 -/

/-- C9 (amended): with no client configured, `index_document`,
`update_visibility` and `delete_document` issue no engine call and leave
the state alone, and `search` returns the "not available" signal `none`,
which is a different value from the empty result list `some []`; with a
client configured, an error raised by the search request itself is caught
and converted to that same `none` signal (errors of the index-readiness
check are merely caught and logged, and search proceeds). -/
theorem engine_unconfigured_spec :
    (∀ (ready : Bool) (f c : String) (p : Bool),
      indexDocument none ready f c p = (ready, [])) ∧
    (∀ (ready : Bool) (f : String) (p : Bool),
      updateVisibility none ready f p = (ready, [])) ∧
    (∀ (ready : Bool) (f : String), deleteDocument none ready f = (ready, [])) ∧
    (∀ (ready : Bool) (q : String) (p : Bool) (s : Nat),
      searchOp none ready q p s = (none, ready, [])) ∧
    (none : Option (List SearchResult)) ≠ some [] ∧
    (∀ (engine : Engine) (ready : Bool) (q : String) (p : Bool) (s : Nat) (msg : String),
      pyStrip q ≠ "" →
      engine.searchResp { query := buildQuery (pyStrip q), publicOnly := p, size := s } =
        .error msg →
      (searchOp (some engine) ready q p s).1 = none) := by
  refine ⟨fun _ _ _ _ => rfl, fun _ _ _ => rfl, fun _ _ => rfl, fun _ _ _ _ => rfl,
    by simp, fun engine ready q p s msg hq hresp => ?_⟩
  simp only [searchOp, if_neg hq, hresp]

/-- C9 counterexample: an engine error raised by the index-readiness
check inside `search` is caught and logged but NOT converted to the
"not available" signal — the search request still runs and its result is
returned, so not every engine error during `search` yields `none`. -/
theorem engine_error_counterexample :
    engineExistsDown.existsResp = Except.error "connection refused" ∧
    EngineCall.indicesExists ∈ (searchOp (some engineExistsDown) false "hello" false 25).2.2 ∧
    (searchOp (some engineExistsDown) false "hello" false 25).1 ≠ none := by
  exact ⟨rfl, by decide, by decide⟩

/-- C9 witness: a concrete engine whose search request raises; the
converted result is `none`. -/
theorem engine_unconfigured_spec_witness :
    pyStrip "hello" ≠ "" ∧
    engineSearchDown.searchResp
      { query := buildQuery (pyStrip "hello"), publicOnly := false, size := 50 } =
      .error "connection refused" ∧
    (searchOp (some engineSearchDown) false "hello" false 50).1 = none := by
  refine ⟨by decide, rfl, ?_⟩
  exact engine_unconfigured_spec.2.2.2.2.2 engineSearchDown false "hello" false 50
    "connection refused" (by decide) rfl

/-! ## C10 -/

theorem ensureIndex_no_search (engine : Engine) (ready : Bool) (body : SearchBody) :
    EngineCall.searchReq body ∉ (ensureIndex engine ready).2 := by
  simp only [ensureIndex]
  by_cases hr : ready
  · simp [hr]
  · simp only [hr, if_false]
    cases engine.existsResp with
    | error e => simp
    | ok b =>
      cases b with
      | true => simp
      | false => cases engine.createResp with
        | error e => simp
        | ok u => simp

/-- C10 counterexample: with a client configured whose index-readiness
flag is still unset, even a blank query makes `search` contact the
engine — `ensure_index` runs before the blank-query check and issues the
index-existence request — so "without issuing an engine request" fails
as stated. -/
theorem empty_query_engine_counterexample :
    (searchOp (some engineSearchDown) false "" false 25).2.2 = [.indicesExists] ∧
    (searchOp (some engineSearchDown) false "" false 25).2.2 ≠ [] := by
  decide

/-- C10 (amended): a blank (empty or whitespace-only) query returns the
empty result list on both paths: the engine-backed search returns
`some []` without issuing a search request (though the one-time
index-readiness check may still contact the engine first), and the
fallback scanner returns `[]` whatever the table and document contents
are, without reading any document — an empty query never matches every
document. -/
theorem empty_query_spec :
    (∀ (engine : Engine) (ready : Bool) (q : String) (p : Bool) (s : Nat),
      pyStrip q = "" →
      (searchOp (some engine) ready q p s).1 = some [] ∧
      ∀ body : SearchBody,
        EngineCall.searchReq body ∉ (searchOp (some engine) ready q p s).2.2) ∧
    (∀ (rows : List IndexRow) (contents : String → Option (List Char))
        (q : String) (p : Bool),
      pyStrip q = "" → fallbackSearch rows contents q p = []) := by
  constructor
  · intro engine ready q p s hq
    constructor
    · simp [searchOp, hq]
    · intro body
      simp only [searchOp, hq, if_pos]
      exact ensureIndex_no_search engine ready body
  · intro rows contents q p hq
    simp [fallbackSearch, hq]

/-- C10 witness: the theorem applied to a whitespace-only query, a
concrete engine and a concrete table. -/
theorem empty_query_spec_witness :
    pyStrip "  " = "" ∧
    (searchOp (some engineSearchDown) true "  " true 25).1 = some [] ∧
    fallbackSearch scanRows scanContents200 "  " false = [] := by
  refine ⟨by decide, ?_, ?_⟩
  · exact ((empty_query_spec.1 engineSearchDown true "  " true 25) (by decide)).1
  · exact empty_query_spec.2 scanRows scanContents200 "  " false (by decide)

/-! ## C3 -/

set_option maxRecDepth 100000

/-- C3 counterexample: in the claimed scenario (4-character term `test`
at offset 100 of a 200-character document) the produced snippet is the
75-129 window with `...` on both sides, not the bare window — both
truncation markers are present, contradicting "both truncation markers
absent". -/
theorem fallback_window_counterexample :
    (fallbackSearch scanRows scanContents200 "test" false).map SearchResult.snippet =
      [snippetC3] ∧
    snippetC3 ≠ windowC3.asString := by
  decide

/-- C3 (amended): a fallback hit's snippet is the window of 25 characters
of padding on each side of the match clamped to the document, with the
`...` marker prepended exactly when content precedes the window
(`start > 25`) and appended exactly when content follows it — i.e. when
the window was NOT clipped by the corresponding document boundary; in the
claimed scenario the snippet is exactly the 75-129 window of the document
with both markers present. -/
theorem fallback_window_spec :
    (∀ (content term : List Char) (start : Nat),
      buildSnippet content term start =
        (if 25 < start then ['.', '.', '.'] else []) ++
        (content.drop (start - 25)).take
          (min (start + term.length + 25) content.length - (start - 25)) ++
        (if start + term.length + 25 < content.length then ['.', '.', '.'] else [])) ∧
    fallbackSearch scanRows scanContents200 "test" false =
      [{ snippet := snippetC3, filename := "doc.md" }] ∧
    snippetC3.toList = '.' :: '.' :: '.' :: ((doc200.drop 75).take (129 - 75) ++ ['.', '.', '.']) := by
  refine ⟨fun content term start => ?_, by decide, by decide⟩
  simp only [buildSnippet]
  by_cases h1 : 25 < start <;>
    by_cases h2 : start + term.length + 25 < content.length
  · rw [if_pos (by omega : (0 : Nat) < start - 25),
      if_pos (by omega : min (start + term.length + 25) content.length < content.length),
      if_pos h1, if_pos h2]
    simp
  · rw [if_pos (by omega : (0 : Nat) < start - 25),
      if_neg (by omega : ¬ min (start + term.length + 25) content.length < content.length),
      if_pos h1, if_neg h2]
    simp
  · rw [if_neg (by omega : ¬ (0 : Nat) < start - 25),
      if_pos (by omega : min (start + term.length + 25) content.length < content.length),
      if_neg h1, if_pos h2]
    simp
  · rw [if_neg (by omega : ¬ (0 : Nat) < start - 25),
      if_neg (by omega : ¬ min (start + term.length + 25) content.length < content.length),
      if_neg h1, if_neg h2]
    simp

/-! ## C4 -/

theorem occursAt_add_length_le (c t : List Char) (i : Nat) (ht : t ≠ [])
    (h : occursAt c t i = true) : i + t.length ≤ c.length := by
  have hpre : t <+: c.drop i := List.isPrefixOf_iff_prefix.mp h
  have hlen : t.length ≤ (c.drop i).length := hpre.length_le
  rw [List.length_drop] at hlen
  have hpos : 0 < t.length := List.length_pos.mpr ht
  omega

theorem findFromAux_some (c t : List Char) (fuel : Nat) :
    ∀ start idx, findFromAux c t fuel start = some idx →
      start ≤ idx ∧ occursAt c t idx = true ∧
      ∀ j, start ≤ j → j < idx → occursAt c t j = false := by
  induction fuel with
  | zero => intro start idx h; simp [findFromAux] at h
  | succ fuel ih =>
    intro start idx h
    simp only [findFromAux] at h
    by_cases hb : start + t.length ≤ c.length
    · rw [if_pos hb] at h
      by_cases hpre : t.isPrefixOf (c.drop start) = true
      · rw [if_pos hpre] at h
        cases h
        exact ⟨Nat.le_refl _, hpre, fun j hj1 hj2 => absurd (Nat.lt_of_le_of_lt hj1 hj2)
          (Nat.lt_irrefl _)⟩
      · rw [if_neg hpre] at h
        obtain ⟨h1, h2, h3⟩ := ih (start + 1) idx h
        refine ⟨by omega, h2, fun j hj1 hj2 => ?_⟩
        rcases Nat.eq_or_lt_of_le hj1 with rfl | hlt
        · simp only [occursAt]
          exact Bool.eq_false_iff.mpr hpre
        · exact h3 j hlt hj2
    · rw [if_neg hb] at h
      exact absurd h (by simp)

theorem findFromAux_none (c t : List Char) (ht : t ≠ []) (fuel : Nat) :
    ∀ start, c.length + 1 ≤ fuel + start → findFromAux c t fuel start = none →
      ∀ j, start ≤ j → occursAt c t j = false := by
  induction fuel with
  | zero =>
    intro start hfuel _ j hj
    cases hocc : occursAt c t j with
    | false => rfl
    | true =>
      have := occursAt_add_length_le c t j ht hocc
      have := List.length_pos.mpr ht
      omega
  | succ fuel ih =>
    intro start hfuel h j hj
    simp only [findFromAux] at h
    by_cases hb : start + t.length ≤ c.length
    · rw [if_pos hb] at h
      by_cases hpre : t.isPrefixOf (c.drop start) = true
      · rw [if_pos hpre] at h
        exact absurd h (by simp)
      · rw [if_neg hpre] at h
        rcases Nat.eq_or_lt_of_le hj with rfl | hlt
        · simp only [occursAt]
          exact Bool.eq_false_iff.mpr hpre
        · exact ih (start + 1) (by omega) h j hlt
    · cases hocc : occursAt c t j with
      | false => rfl
      | true =>
        have := occursAt_add_length_le c t j ht hocc
        omega

theorem findFrom_some (c t : List Char) (start idx : Nat)
    (h : findFrom c t start = some idx) :
    start ≤ idx ∧ occursAt c t idx = true ∧
    ∀ j, start ≤ j → j < idx → occursAt c t j = false :=
  findFromAux_some c t (c.length + 1 - start) start idx h

theorem findFrom_none (c t : List Char) (ht : t ≠ []) (start : Nat)
    (h : findFrom c t start = none) :
    ∀ j, start ≤ j → occursAt c t j = false :=
  findFromAux_none c t ht (c.length + 1 - start) start (by omega) h

theorem findMatchesAux_sound (c t : List Char) (fuel : Nat) :
    ∀ start, ∀ i ∈ findMatchesAux c t fuel start, start ≤ i ∧ occursAt c t i = true := by
  induction fuel with
  | zero => intro start i hi; simp [findMatchesAux] at hi
  | succ fuel ih =>
    intro start i hi
    simp only [findMatchesAux] at hi
    cases hf : findFrom c t start with
    | none => rw [hf] at hi; simp at hi
    | some idx =>
      rw [hf] at hi
      obtain ⟨h1, h2, _⟩ := findFrom_some c t start idx hf
      rcases List.mem_cons.mp hi with rfl | hi2
      · exact ⟨h1, h2⟩
      · obtain ⟨h3, h4⟩ := ih (idx + t.length) i hi2
        exact ⟨by omega, h4⟩

theorem findMatchesAux_chain (c t : List Char) (fuel : Nat) :
    ∀ start, List.Chain' (fun a b => a + t.length ≤ b) (findMatchesAux c t fuel start) := by
  induction fuel with
  | zero => intro start; simp [findMatchesAux]
  | succ fuel ih =>
    intro start
    simp only [findMatchesAux]
    cases hf : findFrom c t start with
    | none => simp
    | some idx =>
      rw [List.chain'_cons']
      refine ⟨fun b hb => ?_, ih _⟩
      have hmem : b ∈ findMatchesAux c t fuel (idx + t.length) := List.mem_of_mem_head? hb
      exact (findMatchesAux_sound c t fuel _ b hmem).1

theorem findMatchesAux_complete (c t : List Char) (ht : t ≠ []) (fuel : Nat) :
    ∀ start, c.length + 1 ≤ fuel + start →
      ∀ j, start ≤ j → occursAt c t j = true →
        ∃ i ∈ findMatchesAux c t fuel start, i ≤ j ∧ j < i + t.length := by
  have htlen : 0 < t.length := List.length_pos.mpr ht
  induction fuel with
  | zero =>
    intro start hfuel j hj hocc
    have := occursAt_add_length_le c t j ht hocc
    omega
  | succ fuel ih =>
    intro start hfuel j hj hocc
    simp only [findMatchesAux]
    cases hf : findFrom c t start with
    | none =>
      have := findFrom_none c t ht start hf j hj
      rw [hocc] at this
      exact absurd this (by simp)
    | some idx =>
      obtain ⟨h1, h2, h3⟩ := findFrom_some c t start idx hf
      by_cases hcase : j < idx + t.length
      · by_cases hcase2 : idx ≤ j
        · exact ⟨idx, List.mem_cons_self _ _, hcase2, hcase⟩
        · have := h3 j hj (by omega)
          rw [hocc] at this
          exact absurd this (by simp)
      · have hj2 : idx + t.length ≤ j := by omega
        obtain ⟨i, hi, hle, hlt⟩ := ih (idx + t.length) (by omega) j hj2 hocc
        exact ⟨i, List.mem_cons_of_mem _ hi, hle, hlt⟩

/-- C4 counterexample: searching for `aa` in the document `aaa`, the term
occurs at the two overlapping positions 0 and 1, but the fallback scanner
emits a single hit — the scan resumes after the end of each match, so
overlapping occurrences are skipped, not reported independently. -/
theorem overlap_counterexample :
    countOccurrences ("aaa".toList.map Char.toLower) ("aa".toList.map Char.toLower) = 2 ∧
    (fallbackSearch scanRows scanContentsAAA "aa" false).length = 1 := by
  decide

/-- C4 (amended): for every document content and non-empty term,
`_find_matches` performs a case-insensitive left-to-right scan that
resumes after the end of each match: every reported position is an
occurrence, consecutive reported positions are at least the term's
length apart (so overlapping occurrences are skipped rather than each
reported), and every occurrence either is reported or overlaps a
reported match. -/
theorem find_matches_scan_spec (content term : List Char) (hterm : term ≠ []) :
    (∀ i ∈ findMatches content term,
      occursAt (content.map Char.toLower) (term.map Char.toLower) i = true) ∧
    List.Chain' (fun a b => a + term.length ≤ b) (findMatches content term) ∧
    (∀ j, occursAt (content.map Char.toLower) (term.map Char.toLower) j = true →
      ∃ i ∈ findMatches content term, i ≤ j ∧ j < i + term.length) := by
  have htl : term.map Char.toLower ≠ [] := by simpa using hterm
  simp only [findMatches, if_neg hterm]
  refine ⟨fun i hi => (findMatchesAux_sound _ _ _ 0 i hi).2, ?_, fun j hocc => ?_⟩
  · have hchain := findMatchesAux_chain (content.map Char.toLower)
      (term.map Char.toLower) ((content.map Char.toLower).length + 1) 0
    simpa [List.length_map] using hchain
  · obtain ⟨i, hi, h1, h2⟩ := findMatchesAux_complete (content.map Char.toLower)
      (term.map Char.toLower) htl ((content.map Char.toLower).length + 1) 0
      (by omega) j (Nat.zero_le _) hocc
    exact ⟨i, hi, h1, by simpa [List.length_map] using h2⟩

/-- C4 witness: the theorem applied to the document `ab` and term `a`. -/
theorem find_matches_scan_spec_witness :
    ("a".toList : List Char) ≠ [] ∧
    ((∀ i ∈ findMatches "ab".toList "a".toList,
      occursAt ("ab".toList.map Char.toLower) ("a".toList.map Char.toLower) i = true) ∧
    List.Chain' (fun a b => a + "a".toList.length ≤ b) (findMatches "ab".toList "a".toList) ∧
    (∀ j, occursAt ("ab".toList.map Char.toLower) ("a".toList.map Char.toLower) j = true →
      ∃ i ∈ findMatches "ab".toList "a".toList, i ≤ j ∧ j < i + "a".toList.length)) :=
  ⟨by decide, find_matches_scan_spec "ab".toList "a".toList (by decide)⟩

end TheDocs
